import Mathlib

/-!
Shallow embedding of the typezero replay core.

Text values (prompts, hex strings, base64 strings, error payload strings of
the JS `Error` objects) are modelled as lists of Nat character codes; byte
buffers (`Uint8Array` / `Buffer`) are modelled as lists of Nat byte values.
Fallible JS functions (those that `throw`) become `Except String` values
carrying the thrown message.

Sources embedded:
  - src/frontend/src/replay.mjs (codec, normalizer, interpreter, scoring)
  - src/backend/prompt.js (server-side normalizePrompt, identical logic)
  - src/unnamed/part_007 (parseEventsBytes, DEFAULT_MAX_EVENTS)
  - src/unnamed/part_006 / src/backend/server.js (decodeBase64Strict,
    parsePlayerPubkey, normalizeHex, handleProve validation and binding)
-/

namespace TypeZero

/-- One timed key event, `{ dtMs, key }` of src/shared/replay.ts.
JS stores both as numbers; valid values are nonnegative, so Nat. -/
structure ReplayEvent where
  dtMs : Nat
  key : Nat
  deriving DecidableEq, Repr

/-- KEY_RANGE_MAX of replay.mjs line 33. -/
def KEY_RANGE_MAX : Nat := 28

/-- MIN_DURATION_PER_CHAR_MS of replay.mjs line 35. -/
def MIN_DURATION_PER_CHAR_MS : Nat := 40

/-- DEFAULT_MAX_EVENTS of src/unnamed/part_007. -/
def DEFAULT_MAX_EVENTS : Nat := 4096

/-- DEFAULT_MAX_SEAL_BYTES of src/unnamed/part_006 line 22. -/
def DEFAULT_MAX_SEAL_BYTES : Nat := 8192

/-- DEFAULT_MAX_PROMPT_CHARS of the servers. -/
def DEFAULT_MAX_PROMPT_CHARS : Nat := 256

/-- Character codes of a Lean string literal, for writing concrete scenarios. -/
def strCodes (s : String) : List Nat :=
  s.toList.map Char.toNat

/-- isAsciiWhitespace of replay.mjs / prompt.js:
space 0x20 or the control range 0x09 to 0x0d. -/
def isAsciiWhitespace (code : Nat) : Bool :=
  code == 0x20 || (0x09 ≤ code && code ≤ 0x0d)

/-- The uppercase ASCII fold, `code >= 0x41 && code <= 0x5a ? code + 32 : code`,
as written inline in normalizePrompt and performed by String.toLowerCase
on ASCII hex strings. -/
def foldLower (code : Nat) : Nat :=
  if 0x41 ≤ code ∧ code ≤ 0x5a then code + 32 else code

/-- The scanning loop of normalizePrompt: walks the input codes carrying the
`inSpace` flag (initially true), rejecting codes above 0x7f, collapsing
whitespace runs to one 0x20 and folding uppercase. -/
def normalizeAux : List Nat → Bool → Except String (List Nat)
  | [], _ => .ok []
  | code :: rest, inSpace =>
    if 0x7f < code then .error "prompt must be ASCII"
    else if isAsciiWhitespace code then
      if inSpace then normalizeAux rest true
      else (normalizeAux rest true).map fun t => 0x20 :: t
    else (normalizeAux rest false).map fun t => foldLower code :: t

/-- normalizePrompt of replay.mjs lines 41-68 (identical in prompt.js):
scan with `inSpace = true`, then pop one trailing space if present. -/
def normalizePrompt (input : List Nat) : Except String (List Nat) :=
  (normalizeAux input true).map fun out =>
    if out.getLast? = some 0x20 then out.dropLast else out

/-- The per-event body of the encode loop of replay.mjs lines 86-100:
range-checks dtMs and key, then emits the 3-byte record
(dt low byte, dt high byte, key byte). -/
def encodeRecords : List ReplayEvent → Except String (List Nat)
  | [] => .ok []
  | e :: rest =>
    if 0xffff < e.dtMs then .error "dtMs out of u16 range"
    else if KEY_RANGE_MAX < e.key then .error "key out of range"
    else match encodeRecords rest with
      | .error msg => .error msg
      | .ok tail => .ok (e.dtMs % 256 :: e.dtMs / 256 % 256 :: e.key % 256 :: tail)

/-- encodeEvents of replay.mjs lines 75-103: u16 length guard, 2-byte
little-endian count header, then the 3-byte records. -/
def encodeEvents (events : List ReplayEvent) : Except String (List Nat) :=
  if 0xffff < events.length then .error "events length exceeds u16"
  else match encodeRecords events with
    | .error msg => .error msg
    | .ok body => .ok (events.length % 256 :: events.length / 256 % 256 :: body)

/-- The record-reading loop of decodeEvents: consumes consecutive 3-byte
records (dt little-endian u16, then key byte). -/
def decodeRecords : List Nat → List ReplayEvent
  | a :: b :: k :: rest => ⟨a + b * 256, k⟩ :: decodeRecords rest
  | _ => []

/-- decodeEvents of replay.mjs lines 105-124: at least 2 bytes, count from
the first two bytes little-endian, exact length 2 + count * 3 mandatory. -/
def decodeEvents (buf : List Nat) : Except String (List ReplayEvent) :=
  match buf with
  | b0 :: b1 :: rest =>
    let len := b0 + b1 * 256
    if rest.length + 2 ≠ 2 + len * 3 then .error "buffer length mismatch"
    else .ok (decodeRecords rest)
  | _ => .error "buffer too short"

/-- The loop of applyEvents, replay.mjs lines 126-148, with the in-progress
`output` array threaded through: codes 0-25 push the letter, 26 pushes a
space, 27 pops (a no-op on empty), 28 does nothing, anything else throws. -/
def applyEventsAux : List ReplayEvent → List Nat → Except String (List Nat)
  | [], output => .ok output
  | e :: rest, output =>
    if e.key ≤ 25 then applyEventsAux rest (output ++ [97 + e.key])
    else if e.key = 26 then applyEventsAux rest (output ++ [0x20])
    else if e.key = 27 then applyEventsAux rest output.dropLast
    else if e.key = 28 then applyEventsAux rest output
    else .error "invalid key in replay"

/-- applyEvents of replay.mjs: run the loop from an empty output. -/
def applyEvents (events : List ReplayEvent) : Except String (List Nat) :=
  applyEventsAux events []

/-- The correct-character count loop of computeStats lines 161-167:
position-by-position agreement up to the shorter length. -/
def countCorrect : List Nat → List Nat → Nat
  | a :: as, b :: bs => (if a = b then 1 else 0) + countCorrect as bs
  | _, _ => 0

/-- The record computeStats returns, replay.mjs lines 174-184. -/
structure Stats where
  normalizedPrompt : List Nat
  output : List Nat
  durationMs : Nat
  typedChars : Nat
  correctChars : Nat
  accuracyBps : Nat
  wpmX100 : Nat
  score : Nat
  minDurationMs : Nat
  deriving DecidableEq, Repr

/-- computeStats of replay.mjs lines 150-185. All JS divisions here are
Math.floor over nonnegative integers, hence Nat division. -/
def computeStats (prompt : List Nat) (events : List ReplayEvent) :
    Except String Stats :=
  match normalizePrompt prompt with
  | .error msg => .error msg
  | .ok normalizedPrompt =>
    match applyEvents events with
    | .error msg => .error msg
    | .ok output =>
      let durationMs := (events.map fun e => e.dtMs).sum
      let typedChars := output.length
      let promptLen := normalizedPrompt.length
      let correctChars := countCorrect output normalizedPrompt
      let accuracyBps :=
        if promptLen = 0 then 0 else correctChars * 10000 / promptLen
      let wpmX100 :=
        if durationMs = 0 then 0 else typedChars * 1200000 / durationMs
      let score := wpmX100 * accuracyBps / 10000
      let minDurationMs := promptLen * MIN_DURATION_PER_CHAR_MS
      .ok ⟨normalizedPrompt, output, durationMs, typedChars, correctChars,
        accuracyBps, wpmX100, score, minDurationMs⟩

/-- parseEventsBytes of src/unnamed/part_007: at least 2 bytes, count from
the first two bytes little-endian, exact length 2 + count * 3, count at
most maxEvents. Returns the count; never inspects the record bytes. -/
def parseEventsBytes (buffer : List Nat) (maxEvents : Nat) : Except String Nat :=
  match buffer with
  | b0 :: b1 :: _rest =>
    let len := b0 + b1 * 256
    if buffer.length ≠ 2 + len * 3 then .error "events_bytes length mismatch"
    else if maxEvents < len then .error "too many events"
    else .ok len
  | _ => .error "events_bytes too short"

/-- One hex digit, upper or lower, matching the character class [0-9a-fA-F]. -/
def isHexDigitCode (c : Nat) : Bool :=
  (48 ≤ c && c ≤ 57) || (65 ≤ c && c ≤ 70) || (97 ≤ c && c ≤ 102)

/-- Numeric value of a hex digit code (only meaningful on isHexDigitCode). -/
def hexDigitVal (c : Nat) : Nat :=
  if c ≤ 57 then c - 48 else if c ≤ 70 then c - 55 else c - 87

/-- Buffer.from(hex, "hex") on an even-length hex string: consecutive
digit pairs become bytes. -/
def hexToBytes : List Nat → List Nat
  | c1 :: c2 :: rest => (hexDigitVal c1 * 16 + hexDigitVal c2) :: hexToBytes rest
  | _ => []

/-- Low hex digit character for a value below 16: 0-9 then a-f. -/
def hexDigitChar (v : Nat) : Nat :=
  if v < 10 then 48 + v else 87 + v

/-- Buffer.prototype.toString("hex"): each byte (below 256) becomes two
lowercase hex digit codes. -/
def bytesToHex : List Nat → List Nat
  | [] => []
  | b :: rest => hexDigitChar (b / 16 % 16) :: hexDigitChar (b % 16) :: bytesToHex rest

/-- String.prototype.trim restricted to the ASCII whitespace the inputs here
can contain: drop whitespace from both ends. -/
def trimAscii (l : List Nat) : List Nat :=
  ((l.dropWhile isAsciiWhitespace).reverse.dropWhile isAsciiWhitespace).reverse

/-- A base64 alphabet character, the class [A-Za-z0-9+/]. -/
def isB64Char (c : Nat) : Bool :=
  (65 ≤ c && c ≤ 90) || (97 ≤ c && c ≤ 122) || (48 ≤ c && c ≤ 57) ||
    c == 43 || c == 47

/-- The test of the regex of decodeBase64Strict: one or more base64 alphabet
characters followed by at most two padding characters 61. Since 61 is not
in the alphabet, the split point is exactly the takeWhile boundary. -/
def matchesB64 (l : List Nat) : Bool :=
  let body := l.takeWhile isB64Char
  let pad := l.drop body.length
  decide (1 ≤ body.length) && pad.all (fun c => c == 61) && decide (pad.length ≤ 2)

/-- Value of a base64 alphabet character. -/
def b64CharVal (c : Nat) : Option Nat :=
  if 65 ≤ c ∧ c ≤ 90 then some (c - 65)
  else if 97 ≤ c ∧ c ≤ 122 then some (c - 97 + 26)
  else if 48 ≤ c ∧ c ≤ 57 then some (c - 48 + 52)
  else if c = 43 then some 62
  else if c = 47 then some 63
  else none

/-- Buffer.from(value, "base64") on strings already past the length and
character-class checks of decodeBase64Strict: standard 4-character groups,
with padding possible only on the final group. -/
def b64Decode : List Nat → Option (List Nat)
  | [] => some []
  | c1 :: c2 :: c3 :: c4 :: rest =>
    match b64CharVal c1, b64CharVal c2 with
    | some v1, some v2 =>
      if c3 = 61 ∧ c4 = 61 ∧ rest = [] then some [v1 * 4 + v2 / 16]
      else
        match b64CharVal c3 with
        | some v3 =>
          if c4 = 61 ∧ rest = [] then
            some [v1 * 4 + v2 / 16, v2 % 16 * 16 + v3 / 4]
          else
            match b64CharVal c4, b64Decode rest with
            | some v4, some tail =>
              some ((v1 * 4 + v2 / 16) :: (v2 % 16 * 16 + v3 / 4) ::
                (v3 % 4 * 64 + v4) :: tail)
            | _, _ => none
        | none => none
    | _, _ => none
  | _ => none

/-- Character code of a 6-bit value in the base64 alphabet. -/
def b64EncChar (v : Nat) : Nat :=
  if v < 26 then 65 + v
  else if v < 52 then 97 + (v - 26)
  else if v < 62 then 48 + (v - 52)
  else if v = 62 then 43
  else 47

/-- Buffer.prototype.toString("base64"): canonical encoding with padding. -/
def b64Encode : List Nat → List Nat
  | b1 :: b2 :: b3 :: rest =>
    b64EncChar (b1 / 4) :: b64EncChar (b1 % 4 * 16 + b2 / 16) ::
      b64EncChar (b2 % 16 * 4 + b3 / 64) :: b64EncChar (b3 % 64) :: b64Encode rest
  | [b1, b2] => [b64EncChar (b1 / 4), b64EncChar (b1 % 4 * 16 + b2 / 16),
      b64EncChar (b2 % 16 * 4), 61]
  | [b1] => [b64EncChar (b1 / 4), b64EncChar (b1 % 4 * 16), 61, 61]
  | [] => []

/-- The replace of the trailing padding run, `replace(/=+$/, "")`. -/
def stripPad (l : List Nat) : List Nat :=
  (l.reverse.dropWhile fun c => c == 61).reverse

/-- decodeBase64Strict of src/backend/server.js lines 65-85 (identical in
src/unnamed/part_006): trim, nonempty, length divisible by 4, alphabet
check, decode, and the re-encode comparison modulo padding. -/
def decodeBase64Strict (value : List Nat) (label : String) :
    Except String (List Nat) :=
  let trimmed := trimAscii value
  if trimmed = [] then .error (label ++ " must not be empty")
  else if trimmed.length % 4 ≠ 0 then .error (label ++ " has invalid length")
  else if ¬ matchesB64 trimmed then .error (label ++ " has invalid characters")
  else match b64Decode trimmed with
    | none => .error (label ++ " is not valid base64")
    | some bytes =>
      if stripPad (b64Encode bytes) ≠ stripPad trimmed then
        .error (label ++ " is not valid base64")
      else .ok bytes

/-- The optional 0x prefix strip, `value.startsWith("0x") ? value.slice(2) : value`. -/
def strip0x (value : List Nat) : List Nat :=
  if value.take 2 = strCodes "0x" then value.drop 2 else value

/-- parsePlayerPubkey of server.js lines 87-100: strip an optional 0x prefix,
accept exactly 64 hex digits as 32 bytes, otherwise fall back to the
external StrKey.decodeEd25519PublicKey, passed here as a parameter since it
lives in the @stellar/stellar-sdk dependency, not in this repository. -/
def parsePlayerPubkey (strKeyDecode : List Nat → Option (List Nat))
    (value : List Nat) : Except String (List Nat) :=
  if value = [] then .error "player_pubkey is required"
  else if (strip0x value).length = 64 ∧ (strip0x value).all isHexDigitCode then
    .ok (hexToBytes (strip0x value))
  else match strKeyDecode value with
      | some bytes => .ok bytes
      | none => .error "player_pubkey must be 32-byte hex or Stellar G... address"

/-- normalizeHex of src/unnamed/part_006 lines 117-136, as called on the
prover seal (no expectedBytes argument): trim, nonempty, optional 0x prefix,
even length, at least one hex digit and only hex digits, lowercased. -/
def normalizeHex (value : List Nat) (label : String) :
    Except String (List Nat) :=
  let trimmed := trimAscii value
  if trimmed = [] then .error (label ++ " must not be empty")
  else
    let hex := strip0x trimmed
    if hex.length % 2 ≠ 0 then .error (label ++ " has invalid length")
    else if hex.isEmpty || ¬ hex.all isHexDigitCode then .error (label ++ " must be hex")
    else .ok (hex.map foldLower)

/-- A JSON number as the validator sees challenge_id after Number():
either an integer value or something failing Number.isInteger. -/
inductive JsNum
  | intVal (i : Int)
  | nonInt
  deriving DecidableEq, Repr

/-- The fields of an inbound prove submission body; none models an absent
(undefined) field. -/
structure ProveBody where
  challenge_id : Option JsNum
  player_pubkey : Option (List Nat)
  prompt : Option (List Nat)
  events_bytes_base64 : Option (List Nat)
  deriving DecidableEq, Repr

/-- The validated request handed to the prover, plus the normalized prompt
bytes the server hashes for the later binding comparison. -/
structure ProofRequest where
  challengeId : Int
  playerPubkey : List Nat
  prompt : List Nat
  eventsBytes : List Nat
  promptBytes : List Nat
  deriving DecidableEq, Repr

/-- The pre-prover validation stage of handleProve, server.js lines 138-193
(src/unnamed/part_006 lines 501-556): presence checks, challenge_id a
non-negative integer, prompt length bound, then player key parsing, strict
base64 decoding, events parsing and prompt normalization, in source order. -/
def validateProveRequest (strKeyDecode : List Nat → Option (List Nat))
    (maxPromptChars maxEvents : Nat) (body : ProveBody) :
    Except String ProofRequest :=
  match body.challenge_id with
  | none => .error "challenge_id is required"
  | some cidRaw =>
    match body.player_pubkey with
    | none => .error "player_pubkey is required"
    | some player =>
      match body.prompt with
      | none => .error "prompt is required"
      | some prompt =>
        match body.events_bytes_base64 with
        | none => .error "events_bytes_base64 is required"
        | some eventsB64 =>
          match cidRaw with
          | .nonInt => .error "challenge_id must be a non-negative integer"
          | .intVal cid =>
            if cid < 0 then .error "challenge_id must be a non-negative integer"
            else if maxPromptChars < prompt.length then
              .error ("prompt exceeds " ++ toString maxPromptChars ++ " chars")
            else
              match parsePlayerPubkey strKeyDecode player with
              | .error msg => .error msg
              | .ok playerPubkeyBytes =>
                match decodeBase64Strict eventsB64 "events_bytes_base64" with
                | .error msg => .error msg
                | .ok eventsBytes =>
                  match parseEventsBytes eventsBytes maxEvents with
                  | .error msg => .error msg
                  | .ok _count =>
                    match normalizePrompt prompt with
                    | .error msg => .error msg
                    | .ok promptBytes =>
                      .ok ⟨cid, playerPubkeyBytes, prompt, eventsBytes, promptBytes⟩

/-- The prover result consumed by the post-prover stage of handleProve.
The three journal fields are the optionally self-declared public outputs;
none models a field that is absent or falsy, which the server skips. -/
structure ProveResult where
  score : Nat
  wpmX100 : Nat
  accuracyBps : Nat
  durationMs : Nat
  imageIdHex : List Nat
  journalSha256Hex : List Nat
  sealHex : List Nat
  journalPromptHashHex : Option (List Nat)
  journalChallengeId : Option Int
  journalPlayerPubkeyHex : Option (List Nat)
  deriving DecidableEq, Repr

/-- The success payload of handleProve. -/
structure ProveResponse where
  score : Nat
  wpmX100 : Nat
  accuracyBps : Nat
  durationMs : Nat
  imageIdHex : List Nat
  journalSha256Hex : List Nat
  sealHex : List Nat
  deriving DecidableEq, Repr

/-- The declared prompt hash disagrees with the computed digest after
lowercasing both, server.js lines 208-215. -/
def promptHashMismatch (computedPromptHashHex : List Nat) (r : ProveResult) : Bool :=
  match r.journalPromptHashHex with
  | some h => decide (h.map foldLower ≠ computedPromptHashHex.map foldLower)
  | none => false

/-- The declared challenge id disagrees with the requested one,
server.js lines 216-222. -/
def challengeMismatch (challengeId : Int) (r : ProveResult) : Bool :=
  match r.journalChallengeId with
  | some j => decide (j ≠ challengeId)
  | none => false

/-- The declared player key hex disagrees with the lowercase hex of the
requested player key bytes, server.js lines 223-229. -/
def playerMismatch (playerPubkeyBytes : List Nat) (r : ProveResult) : Bool :=
  match r.journalPlayerPubkeyHex with
  | some h => decide (h.map foldLower ≠ bytesToHex playerPubkeyBytes)
  | none => false

/-- The three binding checks of handleProve in source order; the first
mismatch is fatal with its own message, absence of a field checks nothing. -/
def checkBindings (computedPromptHashHex : List Nat) (challengeId : Int)
    (playerPubkeyBytes : List Nat) (r : ProveResult) : Except String Unit :=
  if promptHashMismatch computedPromptHashHex r then
    .error "prompt hash mismatch in prover output"
  else if challengeMismatch challengeId r then
    .error "challenge_id mismatch in prover output"
  else if playerMismatch playerPubkeyBytes r then
    .error "player_pubkey mismatch in prover output"
  else .ok ()

/-- The seal size gate of src/unnamed/part_006 lines 578-588: active when the
configured bound is a finite positive number (none models a non-finite
configuration), and tripped when sealHexLen / 2 exceeds the bound. -/
def sealTooLarge (maxSealBytes : Option Nat) (sealHexLen : Nat) : Bool :=
  match maxSealBytes with
  | some m => decide (0 < m) && decide (m < sealHexLen / 2)
  | none => false

/-- The post-prover stage of handleProve in src/unnamed/part_006 lines
571-620: normalize the returned seal, enforce the seal size bound, run the
binding checks, then build the success payload with the optional verifier
selector prefixed to the seal. -/
def handleProveArtifact (maxSealBytes : Option Nat)
    (verifierSelectorHex computedPromptHashHex : List Nat) (challengeId : Int)
    (playerPubkeyBytes : List Nat) (r : ProveResult) :
    Except String ProveResponse :=
  match normalizeHex r.sealHex "prover seal" with
  | .error msg => .error msg
  | .ok sealHex =>
    let sealBytes := sealHex.length / 2
    if sealTooLarge maxSealBytes sealHex.length then
      .error ("seal too large (" ++ toString sealBytes ++ " bytes). Enable Groth16 proving and rebuild typing-proof-host.")
    else
      match checkBindings computedPromptHashHex challengeId playerPubkeyBytes r with
      | .error msg => .error msg
      | .ok _ =>
        .ok ⟨r.score, r.wpmX100, r.accuracyBps, r.durationMs, r.imageIdHex,
          r.journalSha256Hex, verifierSelectorHex ++ sealHex⟩

/-- Modelled from the spec (section 4.2 Prompt Normalizer): any run of
whitespace collapses to a single space 0x20. This definition follows the
spec words and is compared against the source normalizePrompt. -/
def collapseWs : List Nat → List Nat
  | [] => []
  | c :: rest =>
    if isAsciiWhitespace c then
      0x20 :: collapseWs (rest.dropWhile isAsciiWhitespace)
    else c :: collapseWs rest
termination_by l => l.length
decreasing_by
  · have := (List.dropWhile_sublist (l := rest) isAsciiWhitespace).length_le
    simp only [List.length_cons]
    omega
  · simp only [List.length_cons]
    omega

/-- Modelled from the spec: leading/trailing collapse removes a resulting
boundary space entirely. -/
def trimBoundary (l : List Nat) : List Nat :=
  let l1 := if l.head? = some 0x20 then l.tail else l
  if l1.getLast? = some 0x20 then l1.dropLast else l1

/-- Modelled from the spec: collapse whitespace runs, remove boundary
spaces, and case-fold uppercase ASCII by the fixed +32 offset, with no other
transformation. -/
def specNormalize (input : List Nat) : List Nat :=
  (trimBoundary (collapseWs input)).map foldLower

/-- A concrete stats record used by the C1 and C7 witnesses. -/
def statsAB : Stats :=
  ⟨strCodes "ab", [97, 98], 150, 2, 2, 10000, 16000, 16000, 80⟩

/-- A concrete replay used by the C1 and C7 witnesses. -/
def eventsAB : List ReplayEvent :=
  [⟨100, 0⟩, ⟨50, 1⟩]

/-- Whether the second list is a prefix of the first, by codes. -/
def hasPrefixSeq : List Nat → List Nat → Bool
  | _, [] => true
  | [], _ :: _ => false
  | a :: as, b :: bs => a == b && hasPrefixSeq as bs

/-- Whether the pattern occurs contiguously anywhere in the list; used to
state that an error message does or does not name a number. -/
def containsSeq (pattern : List Nat) : List Nat → Bool
  | [] => hasPrefixSeq [] pattern
  | a :: rest => hasPrefixSeq (a :: rest) pattern || containsSeq pattern rest

/-- A prover result whose seal is 4 bytes and which declares no journal
fields; used by the C9 theorems. -/
def sealResultCx : ProveResult :=
  ⟨1, 2, 3, 4, [], [], strCodes "aabbccdd", none, none, none⟩

/-- A prover result declaring no journal fields; used by the C5 witness. -/
def proveResultAbsent : ProveResult :=
  ⟨7, 8, 9, 10, [], [], strCodes "aa", none, none, none⟩

/-- A concrete valid prove body; used by the C6 witness. -/
def bodyOk : ProveBody :=
  ⟨some (.intVal 1),
   some (strCodes "0000000000000000000000000000000000000000000000000000000000000000"),
   some (strCodes "abc"), some (strCodes "AAA=")⟩

/-- The request the validator builds from bodyOk. -/
def reqOk : ProofRequest :=
  ⟨1, List.replicate 32 0, strCodes "abc", [0, 0], strCodes "abc"⟩

/-! ### Helper lemmas -/

instance {ε α : Type} [DecidableEq ε] [DecidableEq α] : DecidableEq (Except ε α)
  | .error a, .error b => decidable_of_iff (a = b) (by simp)
  | .error _, .ok _ => .isFalse (by simp)
  | .ok _, .error _ => .isFalse (by simp)
  | .ok a, .ok b => decidable_of_iff (a = b) (by simp)

/-- On events whose fields are in range, the record encoder succeeds, emits
3 bytes per event, and the record decoder inverts it. -/
lemma encodeRecords_valid (es : List ReplayEvent)
    (h : ∀ e ∈ es, e.dtMs ≤ 0xffff ∧ e.key ≤ 28) :
    ∃ body, encodeRecords es = .ok body ∧ body.length = 3 * es.length ∧
      decodeRecords body = es := by
  induction es with
  | nil => exact ⟨[], rfl, rfl, rfl⟩
  | cons e rest ih =>
    obtain ⟨hdt, hkey⟩ := h e (by simp)
    obtain ⟨tail, htail, hlen, hdec⟩ := ih fun x hx => h x (List.mem_cons_of_mem _ hx)
    refine ⟨e.dtMs % 256 :: e.dtMs / 256 % 256 :: e.key % 256 :: tail, ?_, ?_, ?_⟩
    · rw [encodeRecords, if_neg (by omega), if_neg (by simp [KEY_RANGE_MAX]; omega),
        htail]
    · simp [hlen]; omega
    · rw [decodeRecords, hdec]
      have h1 : e.dtMs % 256 + e.dtMs / 256 % 256 * 256 = e.dtMs := by omega
      have h2 : e.key % 256 = e.key := Nat.mod_eq_of_lt (by omega)
      rw [h1, h2]

/-- Any event list containing an out-of-range key makes the replay loop throw
the invalid-key error, regardless of the output accumulated so far. -/
lemma applyEventsAux_invalid (events : List ReplayEvent) :
    ∀ output, (∃ e ∈ events, KEY_RANGE_MAX < e.key) →
      applyEventsAux events output = .error "invalid key in replay" := by
  induction events with
  | nil => simp
  | cons e rest ih =>
    intro output h
    by_cases hk : KEY_RANGE_MAX < e.key
    · have hk' : 28 < e.key := by simpa [KEY_RANGE_MAX] using hk
      rw [applyEventsAux, if_neg (by omega), if_neg (by omega), if_neg (by omega),
        if_neg (by omega)]
    · obtain ⟨e', he', hke'⟩ := h
      rcases List.mem_cons.mp he' with rfl | he'
      · exact absurd hke' hk
      · rw [applyEventsAux]
        split
        · exact ih _ ⟨e', he', hke'⟩
        · split
          · exact ih _ ⟨e', he', hke'⟩
          · split
            · exact ih _ ⟨e', he', hke'⟩
            · split
              · exact ih _ ⟨e', he', hke'⟩
              · simp [KEY_RANGE_MAX] at hk; omega

/-- The loop count of correct characters equals the number of agreeing
positions below the shorter length. -/
lemma countCorrect_eq_countP (a : List Nat) : ∀ b : List Nat,
    countCorrect a b =
      (List.range (min a.length b.length)).countP
        fun i => a.getD i 0 == b.getD i 0 := by
  induction a with
  | nil => intro b; simp [countCorrect]
  | cons x as ih =>
    intro b
    cases b with
    | nil => simp [countCorrect]
    | cons y bs =>
      have hmin : min (x :: as).length (y :: bs).length = min as.length bs.length + 1 := by
        simp [Nat.succ_min_succ]
      rw [countCorrect, ih bs, hmin, List.range_succ_eq_map, List.countP_cons,
        List.countP_map]
      have hp : ((fun i => (x :: as).getD i 0 == (y :: bs).getD i 0) ∘ Nat.succ)
          = fun i => as.getD i 0 == bs.getD i 0 := by
        funext i
        simp [List.getD_cons_succ]
      rw [hp]
      simp only [List.getD_cons_zero]
      by_cases hxy : x = y
      · simp [hxy]
        omega
      · simp [hxy]

/-- The correct-character count never exceeds the prompt length. -/
lemma countCorrect_le_right (a : List Nat) : ∀ b : List Nat,
    countCorrect a b ≤ b.length := by
  induction a with
  | nil => intro b; cases b <;> simp [countCorrect]
  | cons x as ih =>
    intro b
    cases b with
    | nil => simp [countCorrect]
    | cons y bs =>
      rw [countCorrect]
      have := ih bs
      by_cases hxy : x = y <;> simp [hxy] <;> omega

/-- Unfolding of the collapse on a leading whitespace character. -/
lemma collapseWs_cons_ws {c : Nat} {rest : List Nat} (hw : isAsciiWhitespace c) :
    collapseWs (c :: rest) = 0x20 :: collapseWs (rest.dropWhile isAsciiWhitespace) := by
  rw [collapseWs, if_pos hw]

/-- Unfolding of the collapse on a leading non-whitespace character. -/
lemma collapseWs_cons_not_ws {c : Nat} {rest : List Nat}
    (hw : ¬ isAsciiWhitespace c = true) :
    collapseWs (c :: rest) = c :: collapseWs rest := by
  rw [collapseWs, if_neg hw]

/-- foldLower maps only the space to the space. -/
lemma foldLower_eq_space {c : Nat} : foldLower c = 0x20 ↔ c = 0x20 := by
  unfold foldLower
  split <;> omega

/-- A character failing the whitespace test is not the space. -/
lemma ne_space_of_not_ws {c : Nat} (h : ¬ isAsciiWhitespace c = true) : c ≠ 0x20 := by
  intro hc
  subst hc
  simp [isAsciiWhitespace] at h

/-- Any input containing a code above 0x7f makes the normalizer scan throw,
whatever the inSpace flag. -/
lemma normalizeAux_err (input : List Nat) :
    ∀ b, (∃ c ∈ input, 0x7f < c) →
      normalizeAux input b = .error "prompt must be ASCII" := by
  induction input with
  | nil => simp
  | cons c rest ih =>
    intro b h
    by_cases hc : 0x7f < c
    · rw [normalizeAux, if_pos hc]
    · obtain ⟨c', hc', hgt⟩ := h
      rcases List.mem_cons.mp hc' with rfl | hc'
      · exact absurd hgt hc
      · rw [normalizeAux, if_neg hc]
        split
        · split
          · exact ih _ ⟨c', hc', hgt⟩
          · rw [ih _ ⟨c', hc', hgt⟩]
            rfl
        · rw [ih _ ⟨c', hc', hgt⟩]
          rfl

/-- On all-ASCII input the normalizer scan computes the fold of the
whitespace collapse; with the inSpace flag set it additionally behaves as if
leading whitespace were dropped. -/
lemma normalizeAux_eq (input : List Nat) (h : ∀ c ∈ input, c ≤ 0x7f) :
    normalizeAux input false = .ok ((collapseWs input).map foldLower) ∧
    normalizeAux input true =
      .ok ((collapseWs (input.dropWhile isAsciiWhitespace)).map foldLower) := by
  induction input with
  | nil => simp [normalizeAux, collapseWs]
  | cons c rest ih =>
    have hc : c ≤ 0x7f := h c (List.mem_cons_self c rest)
    obtain ⟨ihF, ihT⟩ := ih fun x hx => h x (List.mem_cons_of_mem _ hx)
    by_cases hw : isAsciiWhitespace c
    · constructor
      · rw [normalizeAux, if_neg (by omega), if_pos hw, if_neg (by simp), ihT]
        rw [collapseWs, if_pos hw]
        simp [Except.map, foldLower_eq_space.mpr rfl, foldLower]
      · rw [normalizeAux, if_neg (by omega), if_pos hw, if_pos rfl, ihT]
        rw [List.dropWhile_cons, if_pos hw]
    · have hstep : ∀ b : Bool, normalizeAux (c :: rest) b =
          (normalizeAux rest false).map fun t => foldLower c :: t := by
        intro b
        rw [normalizeAux, if_neg (by omega), if_neg hw]
      constructor
      · rw [hstep, ihF, collapseWs, if_neg hw]
        rfl
      · rw [hstep, ihF, List.dropWhile_cons, if_neg hw, collapseWs, if_neg hw]
        rfl

/-- Dropping leading whitespace before collapsing equals removing the single
leading space after collapsing. -/
lemma collapseWs_dropWhile (input : List Nat) :
    collapseWs (input.dropWhile isAsciiWhitespace) =
      if (collapseWs input).head? = some 0x20 then (collapseWs input).tail
      else collapseWs input := by
  cases input with
  | nil => simp [collapseWs]
  | cons c rest =>
    by_cases hw : isAsciiWhitespace c
    · rw [List.dropWhile_cons, if_pos hw, collapseWs_cons_ws hw]
      simp
    · rw [List.dropWhile_cons, if_neg hw, collapseWs_cons_not_ws hw]
      rw [if_neg (by simp; exact fun hc => absurd hc (ne_space_of_not_ws hw))]

/-- The trailing-space pop commutes with the lowercase fold. -/
lemma popSpace_map_foldLower (L : List Nat) :
    (if (L.map foldLower).getLast? = some 0x20 then (L.map foldLower).dropLast
      else L.map foldLower) =
    (if L.getLast? = some 0x20 then L.dropLast else L).map foldLower := by
  rw [List.getLast?_map]
  cases hL : L.getLast? with
  | none => simp
  | some x =>
    by_cases hx : x = 0x20
    · subst hx
      rw [if_pos (by simp [foldLower_eq_space.mpr rfl]), if_pos rfl]
      exact (List.map_dropLast foldLower L).symm
    · rw [if_neg (by simp [Option.map]; exact fun hc => hx (foldLower_eq_space.mp hc)),
        if_neg (by simp [hx])]

/-- The source normalizer equals the spec-worded one on ASCII input.
Shared by the C4 and C8 claims. -/
lemma normalizePrompt_ok (input : List Nat) (h : ∀ c ∈ input, c ≤ 0x7f) :
    normalizePrompt input = .ok (specNormalize input) := by
  rw [normalizePrompt, (normalizeAux_eq input h).2]
  simp only [Except.map]
  simp only [specNormalize, trimBoundary, collapseWs_dropWhile]
  rw [popSpace_map_foldLower]

/-- The source normalizer throws the ASCII error on any input containing a
code above 0x7f. Shared by the C4 and C8 claims. -/
lemma normalizePrompt_err (input : List Nat) (h : ∃ c ∈ input, 0x7f < c) :
    normalizePrompt input = .error "prompt must be ASCII" := by
  rw [normalizePrompt, normalizeAux_err input true h]
  rfl

/-- A successful events parse forces the exact length/count shape and the
count bound and nothing else. -/
lemma parseEventsBytes_ok_shape {buffer : List Nat} {maxEvents len : Nat}
    (h : parseEventsBytes buffer maxEvents = .ok len) :
    buffer.length = 2 + len * 3 ∧ len ≤ maxEvents ∧
      ∃ b0 b1 rest, buffer = b0 :: b1 :: rest ∧ len = b0 + b1 * 256 := by
  match buffer with
  | [] => exact absurd h (by simp [parseEventsBytes])
  | [b0] => exact absurd h (by simp [parseEventsBytes])
  | b0 :: b1 :: rest =>
    rw [parseEventsBytes] at h
    split_ifs at h with h1 h2
    simp only [Except.ok.injEq] at h
    subst h
    exact ⟨by omega, by omega, b0, b1, rest, rfl, rfl⟩

/-- A successful strict base64 decode implies the re-encoding reproduces the
trimmed input modulo padding. -/
lemma decodeBase64Strict_ok_reencode {v : List Nat} {label : String}
    {bytes : List Nat} (h : decodeBase64Strict v label = .ok bytes) :
    stripPad (b64Encode bytes) = stripPad (trimAscii v) := by
  rw [decodeBase64Strict] at h
  split_ifs at h with h1 h2 h3
  cases hd : b64Decode (trimAscii v) with
  | none => rw [hd] at h; exact absurd h (by simp)
  | some bytes2 =>
    rw [hd] at h
    dsimp only at h
    split_ifs at h with h4
    simp only [Except.ok.injEq] at h
    subst h
    exact of_not_not h4

/-- A successful player key parse means the value was 64 hex digits after an
optional 0x strip, or the external StrKey decoder recognized it. -/
lemma parsePlayerPubkey_ok_cases {skd : List Nat → Option (List Nat)}
    {value bytes : List Nat} (h : parsePlayerPubkey skd value = .ok bytes) :
    ((strip0x value).length = 64 ∧ (strip0x value).all isHexDigitCode = true)
    ∨ (∃ b, skd value = some b) := by
  by_cases h0 : value = []
  · rw [parsePlayerPubkey, if_pos h0] at h
    exact absurd h (by simp)
  · rw [parsePlayerPubkey, if_neg h0] at h
    by_cases hhex : (strip0x value).length = 64 ∧ (strip0x value).all isHexDigitCode = true
    · exact Or.inl hhex
    · rw [if_neg (by simpa using hhex)] at h
      cases hs : skd value with
      | none => rw [hs] at h; exact absurd h (by simp)
      | some b => exact Or.inr ⟨b, rfl⟩


/-- The prompt hash mismatch flag is clear exactly when any declared hash
agrees with the computed one after lowercasing. -/
lemma promptHashMismatch_false_iff {computed : List Nat} {r : ProveResult} :
    promptHashMismatch computed r = false ↔
      ∀ h, r.journalPromptHashHex = some h →
        h.map foldLower = computed.map foldLower := by
  cases hj : r.journalPromptHashHex <;> simp [promptHashMismatch, hj]

/-- The challenge mismatch flag is clear exactly when any declared challenge
id equals the requested one. -/
lemma challengeMismatch_false_iff {cid : Int} {r : ProveResult} :
    challengeMismatch cid r = false ↔
      ∀ j, r.journalChallengeId = some j → j = cid := by
  cases hj : r.journalChallengeId <;> simp [challengeMismatch, hj]

/-- The player mismatch flag is clear exactly when any declared player hex
equals the lowercase hex of the requested player bytes. -/
lemma playerMismatch_false_iff {pk : List Nat} {r : ProveResult} :
    playerMismatch pk r = false ↔
      ∀ h, r.journalPlayerPubkeyHex = some h →
        h.map foldLower = bytesToHex pk := by
  cases hj : r.journalPlayerPubkeyHex <;> simp [playerMismatch, hj]

/-- The binding stage succeeds exactly when all three mismatch flags are
clear. -/
lemma checkBindings_ok_iff {computed : List Nat} {cid : Int} {pk : List Nat}
    {r : ProveResult} :
    checkBindings computed cid pk r = .ok () ↔
      promptHashMismatch computed r = false ∧ challengeMismatch cid r = false ∧
        playerMismatch pk r = false := by
  rw [checkBindings]
  by_cases h1 : promptHashMismatch computed r = true
  · simp [h1]
  · rw [if_neg h1]
    by_cases h2 : challengeMismatch cid r = true
    · simp [h1, h2]
    · rw [if_neg h2]
      by_cases h3 : playerMismatch pk r = true
      · simp [h1, h2, h3]
      · rw [if_neg h3]
        simp at h1 h2 h3
        simp [h1, h2, h3]

/-- The Bool whitespace test as a proposition. -/
lemma isAsciiWhitespace_iff {c : Nat} :
    isAsciiWhitespace c = true ↔ c = 0x20 ∨ (0x09 ≤ c ∧ c ≤ 0x0d) := by
  simp [isAsciiWhitespace]

/-- Characters the scan pushes are ASCII, never uppercase, and the only
whitespace among them is the space; spaces are never adjacent; and with the
inSpace flag set the output cannot start with a space. -/
lemma normalizeAux_invariants (input : List Nat) :
    ∀ b out, normalizeAux input b = .ok out →
      (∀ c ∈ out, c ≤ 0x7f ∧ ¬(0x41 ≤ c ∧ c ≤ 0x5a) ∧ (isAsciiWhitespace c → c = 0x20))
    ∧ List.Chain' (fun x y => ¬(x = 0x20 ∧ y = 0x20)) out
    ∧ (b = true → out.head? ≠ some 0x20) := by
  induction input with
  | nil =>
    intro b out h
    simp only [normalizeAux, Except.ok.injEq] at h
    subst h
    simp
  | cons c rest ih =>
    intro b out h
    rw [normalizeAux] at h
    by_cases hc : 0x7f < c
    · rw [if_pos hc] at h
      exact absurd h (by simp)
    · rw [if_neg hc] at h
      by_cases hw : isAsciiWhitespace c
      · rw [if_pos hw] at h
        cases b with
        | true =>
          rw [if_pos rfl] at h
          exact ih true out h
        | false =>
          rw [if_neg (by simp)] at h
          cases hrec : normalizeAux rest true with
          | error msg => rw [hrec] at h; exact absurd h (by simp [Except.map])
          | ok t =>
            rw [hrec] at h
            simp only [Except.map, Except.ok.injEq] at h
            subst h
            obtain ⟨hgood, hchain, hhead⟩ := ih true t hrec
            refine ⟨?_, ?_, by simp⟩
            · intro x hx
              rcases List.mem_cons.mp hx with rfl | hx
              · exact ⟨by omega, by omega, fun _ => rfl⟩
              · exact hgood x hx
            · refine List.chain'_cons'.mpr ⟨?_, hchain⟩
              intro y hy
              rintro ⟨-, hy32⟩
              exact (hhead rfl) (by cases ht : t.head? with
                | none => rw [ht] at hy; exact absurd hy (by simp)
                | some z =>
                  rw [ht] at hy
                  simp at hy
                  rw [hy, hy32])
      · rw [if_neg hw] at h
        cases hrec : normalizeAux rest false with
        | error msg => rw [hrec] at h; exact absurd h (by simp [Except.map])
        | ok t =>
          rw [hrec] at h
          simp only [Except.map, Except.ok.injEq] at h
          subst h
          obtain ⟨hgood, hchain, -⟩ := ih false t hrec
          have hfl32 : foldLower c ≠ 0x20 :=
            fun hx => ne_space_of_not_ws hw (foldLower_eq_space.mp hx)
          refine ⟨?_, ?_, ?_⟩
          · intro x hx
            rcases List.mem_cons.mp hx with rfl | hx
            · refine ⟨?_, ?_, ?_⟩
              · unfold foldLower
                split <;> omega
              · unfold foldLower
                split <;> omega
              · intro hws
                rcases isAsciiWhitespace_iff.mp hws with h32 | hctl
                · exact h32
                · exfalso
                  have : ¬ (0x09 ≤ c ∧ c ≤ 0x0d) := fun hcc =>
                    hw (isAsciiWhitespace_iff.mpr (Or.inr hcc))
                  unfold foldLower at hctl
                  revert hctl
                  split <;> omega
            · exact hgood x hx
          · refine List.chain'_cons'.mpr ⟨?_, hchain⟩
            intro y hy
            rintro ⟨hx32, -⟩
            exact hfl32 hx32
          · intro hb hhd
            simp at hhd
            exact hfl32 hhd

/-- Dropping the last element cannot create a leading element. -/
lemma head?_dropLast_ne {l : List Nat} {x : Nat} (h : l.head? ≠ some x) :
    l.dropLast.head? ≠ some x := by
  cases l with
  | nil => simp
  | cons a t =>
    cases t with
    | nil => simp
    | cons b r => simpa [List.dropLast] using h

/-- In a list with no adjacent spaces that ends in a space, dropping that
final space leaves a list not ending in a space. -/
lemma getLast?_dropLast_ne_space (l : List Nat)
    (hchain : List.Chain' (fun x y => ¬(x = 0x20 ∧ y = 0x20)) l)
    (hlast : l.getLast? = some 0x20) :
    l.dropLast.getLast? ≠ some 0x20 := by
  induction l with
  | nil => simp at hlast
  | cons a t ih =>
    cases t with
    | nil => simp
    | cons b r =>
      rw [List.getLast?_cons_cons] at hlast
      cases r with
      | nil =>
        simp only [List.getLast?_singleton, Option.some.injEq] at hlast
        have hab := (List.chain'_cons.mp hchain).1
        simp only [List.dropLast, List.getLast?_singleton, Option.some.injEq]
        intro ha
        exact hab ⟨by simpa using ha, hlast⟩
      | cons d r' =>
        have hrec := ih hchain.tail hlast
        simp only [List.dropLast_cons₂] at hrec ⊢
        rw [List.getLast?_cons_cons]
        exact hrec

/-! ### Claim theorems -/

/-- C2: for every event sequence with at most 0xFFFF events, every dtMs in
[0, 0xFFFF] and every key in [0, 28], encodeEvents succeeds and decodeEvents
inverts it, so the codec directions are mutual inverses on valid inputs. -/
theorem C2_codec_roundtrip (e : List ReplayEvent) (hlen : e.length ≤ 0xffff)
    (hval : ∀ ev ∈ e, ev.dtMs ≤ 0xffff ∧ ev.key ≤ 28) :
    ∃ b, encodeEvents e = .ok b ∧ decodeEvents b = .ok e := by
  obtain ⟨body, hb, hblen, hdec⟩ := encodeRecords_valid e hval
  refine ⟨e.length % 256 :: e.length / 256 % 256 :: body, ?_, ?_⟩
  · rw [encodeEvents, if_neg (by omega), hb]
  · rw [decodeEvents]
    have hrecon : e.length % 256 + e.length / 256 % 256 * 256 = e.length := by omega
    rw [hrecon, if_neg (by omega), hdec]

/-- C2 witness at a concrete valid event sequence. -/
theorem C2_codec_roundtrip_witness :
    ∃ b, encodeEvents [⟨12, 0⟩, ⟨34, 26⟩, ⟨56, 27⟩] = .ok b ∧
      decodeEvents b = .ok [⟨12, 0⟩, ⟨34, 26⟩, ⟨56, 27⟩] :=
  C2_codec_roundtrip [⟨12, 0⟩, ⟨34, 26⟩, ⟨56, 27⟩] (by decide) (by decide)

/-- C3: applyEvents processes events in order: codes 0-25 append the letter
code 97 + key, code 26 appends a space, code 27 drops the last output
character (a no-op, not an error, on empty output, so the single-backspace
replay yields the empty string), code 28 has no text effect, and any event
list containing a key above 28 (such as 29) fails with the invalid-key
error instead of skipping the event. -/
theorem C3_applyEvents_behavior :
    (∀ d k rest output, k ≤ 25 →
      applyEventsAux (⟨d, k⟩ :: rest) output = applyEventsAux rest (output ++ [97 + k]))
  ∧ (∀ d rest output,
      applyEventsAux (⟨d, 26⟩ :: rest) output = applyEventsAux rest (output ++ [0x20]))
  ∧ (∀ d rest output,
      applyEventsAux (⟨d, 27⟩ :: rest) output = applyEventsAux rest output.dropLast)
  ∧ (∀ d rest output,
      applyEventsAux (⟨d, 28⟩ :: rest) output = applyEventsAux rest output)
  ∧ applyEvents [⟨10, 27⟩] = .ok (strCodes "")
  ∧ (∀ events, (∃ e ∈ events, KEY_RANGE_MAX < e.key) →
      applyEvents events = .error "invalid key in replay")
  ∧ applyEvents [⟨10, 29⟩] = .error "invalid key in replay" := by
  refine ⟨?_, ?_, ?_, ?_, by decide, ?_, by decide⟩
  · intro d k rest output hk
    rw [applyEventsAux, if_pos hk]
  · intro d rest output
    simp [applyEventsAux]
  · intro d rest output
    simp [applyEventsAux]
  · intro d rest output
    simp [applyEventsAux]
  · intro events h
    exact applyEventsAux_invalid events [] h

/-- C3 witness at concrete inputs. -/
theorem C3_applyEvents_behavior_witness :
    applyEventsAux [] ([] ++ [97 + 0]) = .ok [97] ∧
    applyEventsAux ([⟨5, 0⟩] : List ReplayEvent) [] = .ok [97] :=
  ⟨by decide, by rw [C3_applyEvents_behavior.1 5 0 [] [] (by decide)]; decide⟩

/-- C1: on every prompt and event sequence computeStats accepts, the returned
stats satisfy the integer formulas of the spec: durationMs is the sum of the
dtMs values, correctChars counts the agreeing positions below the shorter of
the two lengths, accuracyBps is floor(correctChars * 10000 / promptLen) and 0
for the empty prompt, wpmX100 is floor(typedChars * 1200000 / durationMs) and
0 for zero duration, score is floor(wpmX100 * accuracyBps / 10000),
minDurationMs is promptLen * 40, and the empty event list yields zero
duration, wpm and score. -/
theorem C1_computeStats_formulas (p : List Nat) (e : List ReplayEvent) (s : Stats)
    (h : computeStats p e = .ok s) :
    s.durationMs = (e.map fun ev => ev.dtMs).sum
  ∧ s.typedChars = s.output.length
  ∧ s.correctChars = ((List.range (min s.output.length s.normalizedPrompt.length)).countP
      fun i => s.output.getD i 0 == s.normalizedPrompt.getD i 0)
  ∧ s.accuracyBps = (if s.normalizedPrompt.length = 0 then 0
      else s.correctChars * 10000 / s.normalizedPrompt.length)
  ∧ s.wpmX100 = (if s.durationMs = 0 then 0 else s.typedChars * 1200000 / s.durationMs)
  ∧ s.score = s.wpmX100 * s.accuracyBps / 10000
  ∧ s.minDurationMs = s.normalizedPrompt.length * 40
  ∧ MIN_DURATION_PER_CHAR_MS = 40
  ∧ (e = [] → s.durationMs = 0 ∧ s.wpmX100 = 0 ∧ s.score = 0) := by
  rw [computeStats] at h
  cases hn : normalizePrompt p with
  | error msg => rw [hn] at h; exact absurd h (by simp)
  | ok np =>
    rw [hn] at h
    cases ha : applyEvents e with
    | error msg => rw [ha] at h; exact absurd h (by simp)
    | ok output =>
      rw [ha] at h
      simp only [Except.ok.injEq] at h
      subst h
      refine ⟨rfl, rfl, countCorrect_eq_countP output np, rfl, rfl, rfl, rfl, rfl, ?_⟩
      rintro rfl
      simp

/-- C1 witness at a concrete prompt and replay. -/
theorem C1_computeStats_formulas_witness :
    statsAB.durationMs = (eventsAB.map fun ev => ev.dtMs).sum :=
  (C1_computeStats_formulas (strCodes "ab") eventsAB statsAB (by decide)).1

/-- C7: on every prompt and event sequence computeStats accepts, the returned
accuracyBps lies between 0 and 10000, because the correct-character count
never exceeds the normalized prompt length. -/
theorem C7_accuracy_bound (p : List Nat) (e : List ReplayEvent) (s : Stats)
    (h : computeStats p e = .ok s) :
    0 ≤ s.accuracyBps ∧ s.accuracyBps ≤ 10000 := by
  rw [computeStats] at h
  cases hn : normalizePrompt p with
  | error msg => rw [hn] at h; exact absurd h (by simp)
  | ok np =>
    rw [hn] at h
    cases ha : applyEvents e with
    | error msg => rw [ha] at h; exact absurd h (by simp)
    | ok output =>
      rw [ha] at h
      simp only [Except.ok.injEq] at h
      subst h
      refine ⟨Nat.zero_le _, ?_⟩
      simp only
      split
      · exact Nat.zero_le _
      · rename_i hlen
        have hc : countCorrect output np ≤ np.length := countCorrect_le_right output np
        calc countCorrect output np * 10000 / np.length
            ≤ np.length * 10000 / np.length :=
              Nat.div_le_div_right (Nat.mul_le_mul_right _ hc)
          _ = 10000 := Nat.mul_div_cancel_left _ (Nat.pos_of_ne_zero hlen)

/-- C4: the normalizer fails with the ASCII error exactly on inputs with a
code point above 0x7f; on ASCII input it performs whitespace collapse,
boundary trim and the +32 uppercase fold and nothing else (it equals the
spec-worded specNormalize); and the spec scenario holds. -/
theorem C4_normalize_characterization (input : List Nat) :
    ((∃ c ∈ input, 0x7f < c) → normalizePrompt input = .error "prompt must be ASCII")
  ∧ ((∀ c ∈ input, c ≤ 0x7f) → normalizePrompt input = .ok (specNormalize input))
  ∧ normalizePrompt (strCodes "  HeLLo\t  WoRLD  ") = .ok (strCodes "hello world") :=
  ⟨normalizePrompt_err input, normalizePrompt_ok input, by decide⟩

/-- C4 witness at concrete ASCII and non-ASCII inputs. -/
theorem C4_normalize_characterization_witness :
    normalizePrompt [200] = .error "prompt must be ASCII" ∧
    normalizePrompt (strCodes "A b") = .ok (specNormalize (strCodes "A b")) :=
  ⟨(C4_normalize_characterization [200]).1 ⟨200, by simp, by omega⟩,
   (C4_normalize_characterization (strCodes "A b")).2.1 (by decide)⟩

/-- C8 counterexample: the digit prompt "1" normalizes to itself, and the
digit 49 is neither a space nor a lowercase letter, so the output of
normalize is not restricted to lowercase letters and single spaces. -/
theorem C8_counterexample :
    normalizePrompt (strCodes "1") = .ok [49]
  ∧ ¬(49 = 0x20 ∨ (97 ≤ 49 ∧ 49 ≤ 122)) := by
  refine ⟨by decide, by decide⟩

/-- C8 (amended): on every input normalize accepts, the output contains no
code above 0x7f, no uppercase ASCII letter, and no whitespace other than the
single space; and it has no leading space, no trailing space, and no two
adjacent spaces. -/
theorem C8_output_invariants (input out : List Nat)
    (h : normalizePrompt input = .ok out) :
    (∀ c ∈ out, c ≤ 0x7f ∧ ¬(0x41 ≤ c ∧ c ≤ 0x5a) ∧ (isAsciiWhitespace c → c = 0x20))
  ∧ out.head? ≠ some 0x20
  ∧ out.getLast? ≠ some 0x20
  ∧ List.Chain' (fun x y => ¬(x = 0x20 ∧ y = 0x20)) out := by
  rw [normalizePrompt] at h
  cases haux : normalizeAux input true with
  | error msg => rw [haux] at h; exact absurd h (by simp [Except.map])
  | ok out0 =>
    rw [haux] at h
    simp only [Except.map, Except.ok.injEq] at h
    subst h
    obtain ⟨hgood, hchain, hhead⟩ := normalizeAux_invariants input true out0 haux
    by_cases hlast : out0.getLast? = some 0x20
    · rw [if_pos hlast]
      refine ⟨?_, ?_, ?_, hchain.init⟩
      · exact fun c hc => hgood c ((List.dropLast_sublist out0).subset hc)
      · exact head?_dropLast_ne (hhead rfl)
      · exact getLast?_dropLast_ne_space out0 hchain hlast
    · rw [if_neg hlast]
      exact ⟨hgood, hhead rfl, hlast, hchain⟩

/-- C8 witness at a concrete accepted input. -/
theorem C8_output_invariants_witness :
    (∀ c ∈ strCodes "ab c", c ≤ 0x7f ∧ ¬(0x41 ≤ c ∧ c ≤ 0x5a) ∧
        (isAsciiWhitespace c → c = 0x20))
  ∧ (strCodes "ab c").head? ≠ some 0x20
  ∧ (strCodes "ab c").getLast? ≠ some 0x20
  ∧ List.Chain' (fun x y => ¬(x = 0x20 ∧ y = 0x20)) (strCodes "ab c") :=
  C8_output_invariants (strCodes "ab c") (strCodes "ab c") (by decide)

/-- C7 witness at a concrete prompt and replay. -/
theorem C7_accuracy_bound_witness :
    0 ≤ statsAB.accuracyBps ∧ statsAB.accuracyBps ≤ 10000 :=
  C7_accuracy_bound (strCodes "ab") eventsAB statsAB (by decide)

/-- C10: decodeEvents validates only the count/length shape — it succeeds on
every buffer of the right length whatever the record bytes, so key codes
above 28 pass decoding; parseEventsBytes likewise checks only the
count/length shape and the count bound; such a replay is rejected only when
applyEvents replays it; and encodeEvents raises on the decoded events, so
the codec inverse holds only in the decode-after-encode direction. -/
theorem C10_no_key_validation :
    (∀ (b0 b1 : Nat) (rest : List Nat), rest.length = (b0 + b1 * 256) * 3 →
      decodeEvents (b0 :: b1 :: rest) = .ok (decodeRecords rest))
  ∧ decodeEvents [1, 0, 10, 0, 29] = .ok [⟨10, 29⟩]
  ∧ parseEventsBytes [1, 0, 10, 0, 29] DEFAULT_MAX_EVENTS = .ok 1
  ∧ applyEvents [⟨10, 29⟩] = .error "invalid key in replay"
  ∧ encodeEvents [⟨10, 29⟩] = .error "key out of range"
  ∧ (∀ buffer maxEvents len, parseEventsBytes buffer maxEvents = .ok len →
      buffer.length = 2 + len * 3 ∧ len ≤ maxEvents) := by
  refine ⟨?_, by decide, by decide, by decide, by decide, ?_⟩
  · intro b0 b1 rest hlen
    rw [decodeEvents, if_neg (by omega)]
  · intro buffer maxEvents len h
    obtain ⟨h1, h2, -⟩ := parseEventsBytes_ok_shape h
    exact ⟨h1, h2⟩

/-- C10 witness at the empty buffer shape. -/
theorem C10_no_key_validation_witness :
    decodeEvents [0, 0] = .ok (decodeRecords []) :=
  C10_no_key_validation.1 0 0 [] rfl

/-- C5: the binding stage accepts an artifact declaring no journal fields;
it accepts exactly when every declared field (prompt hash, challenge id,
player identity) equals the corresponding request value, comparing the hex
strings after lowercasing both sides; and when the binding stage rejects,
handleProve never returns a success payload for that artifact. -/
theorem C5_binding_checks (msb : Option Nat) (sel computed : List Nat)
    (cid : Int) (pk : List Nat) (r : ProveResult) :
    ((r.journalPromptHashHex = none ∧ r.journalChallengeId = none ∧
        r.journalPlayerPubkeyHex = none) → checkBindings computed cid pk r = .ok ())
  ∧ (checkBindings computed cid pk r = .ok () ↔
      (∀ h, r.journalPromptHashHex = some h →
        h.map foldLower = computed.map foldLower)
      ∧ (∀ j, r.journalChallengeId = some j → j = cid)
      ∧ (∀ h, r.journalPlayerPubkeyHex = some h →
        h.map foldLower = bytesToHex pk))
  ∧ (∀ msg, checkBindings computed cid pk r = .error msg →
      ∀ resp, handleProveArtifact msb sel computed cid pk r ≠ .ok resp) := by
  refine ⟨?_, ?_, ?_⟩
  · rintro ⟨h1, h2, h3⟩
    simp [checkBindings, promptHashMismatch, challengeMismatch, playerMismatch,
      h1, h2, h3]
  · rw [checkBindings_ok_iff, promptHashMismatch_false_iff,
      challengeMismatch_false_iff, playerMismatch_false_iff]
  · intro msg hmsg resp
    rw [handleProveArtifact]
    cases hn : normalizeHex r.sealHex "prover seal" with
    | error m => simp
    | ok sealHex =>
      dsimp only
      split
      · simp
      · rw [hmsg]
        simp

/-- C5 witness: an artifact declaring none of the journal fields passes the
binding stage. -/
theorem C5_binding_checks_witness :
    checkBindings [] 1 [] proveResultAbsent = .ok () :=
  (C5_binding_checks (some 8192) [] [] 1 [] proveResultAbsent).1 ⟨rfl, rfl, rfl⟩

/-- C9 counterexample: with the configured seal limit 3 in effect and a
4-byte seal, the request fails, but the error message does not contain the
decimal digits of the configured limit — it names the actual seal size
instead, so the claim that the error names the configured limit is false. -/
theorem C9_counterexample :
    handleProveArtifact (some 3) [] [] 1 [] sealResultCx =
      .error "seal too large (4 bytes). Enable Groth16 proving and rebuild typing-proof-host."
  ∧ containsSeq (strCodes "3")
      (strCodes "seal too large (4 bytes). Enable Groth16 proving and rebuild typing-proof-host.")
      = false := by
  exact ⟨by decide, by decide⟩

/-- C9 (amended): the default seal limit is 8192 bytes; when a positive
limit is configured and the normalized seal exceeds it, handleProve fails
with a distinct error naming the actual seal byte size, and the artifact is
not returned to the caller. -/
theorem C9_seal_size_limit (m : Nat) (sel computed : List Nat) (cid : Int)
    (pk : List Nat) (r : ProveResult) (sealHex : List Nat)
    (hm : 0 < m)
    (hn : normalizeHex r.sealHex "prover seal" = .ok sealHex)
    (hs : m < sealHex.length / 2) :
    DEFAULT_MAX_SEAL_BYTES = 8192
  ∧ handleProveArtifact (some m) sel computed cid pk r =
      .error ("seal too large (" ++ toString (sealHex.length / 2) ++
        " bytes). Enable Groth16 proving and rebuild typing-proof-host.")
  ∧ (∀ resp, handleProveArtifact (some m) sel computed cid pk r ≠ .ok resp) := by
  have hlarge : sealTooLarge (some m) sealHex.length = true := by
    simp only [sealTooLarge, Bool.and_eq_true, decide_eq_true_eq]
    exact ⟨hm, hs⟩
  have hmain : handleProveArtifact (some m) sel computed cid pk r =
      .error ("seal too large (" ++ toString (sealHex.length / 2) ++
        " bytes). Enable Groth16 proving and rebuild typing-proof-host.") := by
    rw [handleProveArtifact, hn]
    dsimp only
    rw [if_pos hlarge]
  exact ⟨rfl, hmain, fun resp h => by rw [hmain] at h; exact absurd h (by simp)⟩

/-- C9 witness at the concrete oversized seal. -/
theorem C9_seal_size_limit_witness :
    DEFAULT_MAX_SEAL_BYTES = 8192
  ∧ handleProveArtifact (some 3) [] [] 1 [] sealResultCx =
      .error ("seal too large (" ++ toString ((strCodes "aabbccdd").length / 2) ++
        " bytes). Enable Groth16 proving and rebuild typing-proof-host.")
  ∧ (∀ resp, handleProveArtifact (some 3) [] [] 1 [] sealResultCx ≠ .ok resp) :=
  C9_seal_size_limit 3 [] [] 1 [] sealResultCx (strCodes "aabbccdd")
    (by decide) (by decide) (by decide)

/-- C6: whenever the validator accepts a prove submission, the challenge id
was a present non-negative integer, the prompt was present and within the
length bound, the player identity was 64 hex digits (after an optional 0x
strip) or recognized by the external address decoder, the replay payload
passed the strict base64 check (re-encoding the decoded bytes reproduces the
trimmed input modulo padding) and has the exact 2 + 3*count length for the
count in its first two bytes with count at most the configured maximum
(default 4096); contrapositively, any submission violating one of these is
rejected, and the head violations produce their own distinct errors. -/
theorem C6_validator_rejections (strKeyDecode : List Nat → Option (List Nat))
    (maxPromptChars maxEvents : Nat) (body : ProveBody) (req : ProofRequest)
    (h : validateProveRequest strKeyDecode maxPromptChars maxEvents body = .ok req) :
    (∃ i : Int, body.challenge_id = some (.intVal i) ∧ 0 ≤ i ∧ req.challengeId = i)
  ∧ (∃ prompt, body.prompt = some prompt ∧ prompt.length ≤ maxPromptChars ∧
      req.prompt = prompt)
  ∧ (∃ player, body.player_pubkey = some player ∧
      (((strip0x player).length = 64 ∧ (strip0x player).all isHexDigitCode = true)
       ∨ (∃ b, strKeyDecode player = some b)))
  ∧ (∃ b64, body.events_bytes_base64 = some b64 ∧
      decodeBase64Strict b64 "events_bytes_base64" = .ok req.eventsBytes ∧
      stripPad (b64Encode req.eventsBytes) = stripPad (trimAscii b64))
  ∧ (∃ b0 b1 rest, req.eventsBytes = b0 :: b1 :: rest ∧
      rest.length = (b0 + b1 * 256) * 3 ∧ b0 + b1 * 256 ≤ maxEvents)
  ∧ DEFAULT_MAX_EVENTS = 4096
  ∧ (∀ i : Int, i < 0 → ∀ pl pr ev,
      validateProveRequest strKeyDecode maxPromptChars maxEvents
        ⟨some (.intVal i), some pl, some pr, some ev⟩ =
        .error "challenge_id must be a non-negative integer")
  ∧ (∀ pl pr ev,
      validateProveRequest strKeyDecode maxPromptChars maxEvents
        ⟨some .nonInt, some pl, some pr, some ev⟩ =
        .error "challenge_id must be a non-negative integer")
  ∧ (∀ i : Int, 0 ≤ i → ∀ pl pr ev, maxPromptChars < pr.length →
      validateProveRequest strKeyDecode maxPromptChars maxEvents
        ⟨some (.intVal i), some pl, some pr, some ev⟩ =
        .error ("prompt exceeds " ++ toString maxPromptChars ++ " chars")) := by
  cases hcid : body.challenge_id with
  | none => rw [validateProveRequest, hcid] at h; exact absurd h (by simp)
  | some cidRaw =>
  cases hpl : body.player_pubkey with
  | none => rw [validateProveRequest, hcid, hpl] at h; exact absurd h (by simp)
  | some player =>
  cases hpr : body.prompt with
  | none => rw [validateProveRequest, hcid, hpl, hpr] at h; exact absurd h (by simp)
  | some prompt =>
  cases hev : body.events_bytes_base64 with
  | none =>
    rw [validateProveRequest, hcid, hpl, hpr, hev] at h
    exact absurd h (by simp)
  | some eventsB64 =>
  rw [validateProveRequest, hcid, hpl, hpr, hev] at h
  cases cidRaw with
  | nonInt => exact absurd h (by simp)
  | intVal cid =>
  dsimp only at h
  split_ifs at h with hneg hlong
  cases hpk : parsePlayerPubkey strKeyDecode player with
  | error msg => rw [hpk] at h; exact absurd h (by simp)
  | ok playerPubkeyBytes =>
  rw [hpk] at h
  dsimp only at h
  cases hb64 : decodeBase64Strict eventsB64 "events_bytes_base64" with
  | error msg => rw [hb64] at h; exact absurd h (by simp)
  | ok eventsBytes =>
  rw [hb64] at h
  dsimp only at h
  cases hpe : parseEventsBytes eventsBytes maxEvents with
  | error msg => rw [hpe] at h; exact absurd h (by simp)
  | ok count =>
  rw [hpe] at h
  dsimp only at h
  cases hnp : normalizePrompt prompt with
  | error msg => rw [hnp] at h; exact absurd h (by simp)
  | ok promptBytes =>
  rw [hnp] at h
  simp only [Except.ok.injEq] at h
  subst h
  obtain ⟨hshape, hbound, b0, b1, rest, hbuf, hcount⟩ := parseEventsBytes_ok_shape hpe
  refine ⟨⟨cid, rfl, by omega, rfl⟩,
    ⟨prompt, rfl, by omega, rfl⟩,
    ⟨player, rfl, parsePlayerPubkey_ok_cases hpk⟩,
    ⟨eventsB64, rfl, hb64, decodeBase64Strict_ok_reencode hb64⟩,
    ⟨b0, b1, rest, hbuf, by rw [hbuf] at hshape; simp at hshape; omega, by omega⟩,
    rfl, ?_, ?_, ?_⟩
  · intro i hi pl pr ev
    rw [validateProveRequest]
    dsimp only
    rw [if_pos hi]
  · intro pl pr ev
    rw [validateProveRequest]
  · intro i hi pl pr ev hlen
    rw [validateProveRequest]
    dsimp only
    rw [if_neg (by omega), if_pos hlen]

/-- C6 witness at a concrete accepted submission. -/
theorem C6_validator_rejections_witness :
    ∃ i : Int, bodyOk.challenge_id = some (.intVal i) ∧ 0 ≤ i ∧
      reqOk.challengeId = i :=
  (C6_validator_rejections (fun _ => none) 256 4096 bodyOk reqOk (by decide)).1

end TypeZero
